import Mathlib

/-!
Verification of the KeePass v1 database reader (rust-keepass).

This file shallowly embeds the parsing and tree-building code of
`src/kpdb/v1kpdb.rs` (the current module) and the header/decrypt checks of
`src/v1kpdb/mod.rs` (the older module) in Lean 4.

Conventions of the embedding:
* Machine integers (`u8`, `u16`, `u32`, `usize`) are modelled as `Nat`;
  wrap-around is made explicit where the source relies on it.
* Byte buffers (`Vec<u8>`, `&[u8]`) are `List Nat` (each element a byte).
* A Rust function that can panic (out-of-bounds slice/index, `unwrap()` on
  `None`/`Err`, arithmetic underflow on unsigned ints) is modelled with an
  outer `Option`: `none` means the function panics / aborts and returns no
  value at all.  A Rust `Result<T, V1KpdbError>` is `Except V1KpdbError T`.
* File I/O and the OpenSSL primitives (SHA-256, AES) are outside the
  embedding; the decrypted plaintext is taken as the input of the body
  parser, exactly as `parse_groups` / `parse_entries` receive it.
-/

namespace Keepass

/-- Error taxonomy.  Union of the `V1KpdbError` enums of the two modules
(the dedicated `v1error` module is not under `src/`; its variants are those
used by `src/kpdb/v1kpdb.rs` plus the ones declared in `src/v1kpdb/mod.rs`). -/
inductive V1KpdbError where
  | FileErr
  | ReadErr
  | SignatureErr
  | EncFlagErr
  | VersionErr
  | DecryptErr
  | HashErr
  | ConvertErr
  | OffsetErr
  | TreeErr
deriving DecidableEq, Repr

/-- Embedding of `slice_to_u16` (src/kpdb/v1kpdb.rs:59): little-endian u16
from the first two bytes, `ConvertErr` when the slice is shorter than 2. -/
def slice_to_u16 (s : List Nat) : Except V1KpdbError Nat :=
  if s.length < 2 then .error .ConvertErr
  else .ok ((s.getD 1 0 <<< 8) ||| s.getD 0 0)

/-- Embedding of `slice_to_u32` (src/kpdb/v1kpdb.rs:68): little-endian u32
from the first four bytes, `ConvertErr` when the slice is shorter than 4. -/
def slice_to_u32 (s : List Nat) : Except V1KpdbError Nat :=
  if s.length < 4 then .error .ConvertErr
  else .ok ((s.getD 3 0 <<< 24) ||| (s.getD 2 0 <<< 16) ||| (s.getD 1 0 <<< 8) ||| s.getD 0 0)

/-- Model of Rust `v.slice(s, e)` (pre-1.0 `&v[s..e]`): the subslice when
`s ≤ e ≤ v.len()`, a panic (`none`) otherwise. -/
def rslice (db : List Nat) (s e : Nat) : Option (List Nat) :=
  if s ≤ e ∧ e ≤ db.length then some ((db.drop s).take (e - s)) else none

/-- The `Tm` timestamp record (module `tm`, fields as used by `get_date`). -/
structure Tm where
  year   : Nat
  month  : Nat
  day    : Nat
  hour   : Nat
  minute : Nat
  second : Nat
deriving DecidableEq, Repr

/-- Embedding of `get_date` (src/kpdb/v1kpdb.rs:351).  The source indexes
`date_bytes[0]` .. `date_bytes[4]`, so a slice of fewer than 5 bytes
panics (`none`).  The arithmetic is on `i32` values of bytes, which agrees
with `Nat` arithmetic. -/
def get_date (date_bytes : List Nat) : Option Tm :=
  if date_bytes.length < 5 then none
  else
    let dw1 := date_bytes.getD 0 0
    let dw2 := date_bytes.getD 1 0
    let dw3 := date_bytes.getD 2 0
    let dw4 := date_bytes.getD 3 0
    let dw5 := date_bytes.getD 4 0
    some { year   := (dw1 <<< 6) ||| (dw2 >>> 2)
         , month  := ((dw2 &&& 0x03) <<< 2) ||| (dw3 >>> 6)
         , day    := (dw3 >>> 1) &&& 0x1F
         , hour   := ((dw3 &&& 0x01) <<< 4) ||| (dw4 >>> 4)
         , minute := ((dw4 &&& 0x0F) <<< 2) ||| (dw5 >>> 6)
         , second := dw5 &&& 0x3F }

/-- Whether a byte is a UTF-8 continuation byte (`0x80..0xBF`). -/
def utf8Cont (b : Nat) : Bool := 0x80 ≤ b && b ≤ 0xBF

/-- Model of Rust `str::from_utf8(..).is_ok()`: RFC 3629 validity of a byte
sequence (well-formed UTF-8, no surrogates, no overlong forms, max U+10FFFF). -/
def utf8Valid : List Nat → Bool
  | [] => true
  | b :: rest =>
    if b < 0x80 then utf8Valid rest
    else if 0xC2 ≤ b && b ≤ 0xDF then
      match rest with
      | c1 :: r => utf8Cont c1 && utf8Valid r
      | [] => false
    else if b = 0xE0 then
      match rest with
      | c1 :: c2 :: r => (0xA0 ≤ c1 && c1 ≤ 0xBF) && utf8Cont c2 && utf8Valid r
      | _ => false
    else if (0xE1 ≤ b && b ≤ 0xEC) || b = 0xEE || b = 0xEF then
      match rest with
      | c1 :: c2 :: r => utf8Cont c1 && utf8Cont c2 && utf8Valid r
      | _ => false
    else if b = 0xED then
      match rest with
      | c1 :: c2 :: r => (0x80 ≤ c1 && c1 ≤ 0x9F) && utf8Cont c2 && utf8Valid r
      | _ => false
    else if b = 0xF0 then
      match rest with
      | c1 :: c2 :: c3 :: r => (0x90 ≤ c1 && c1 ≤ 0xBF) && utf8Cont c2 && utf8Cont c3 && utf8Valid r
      | _ => false
    else if 0xF1 ≤ b && b ≤ 0xF3 then
      match rest with
      | c1 :: c2 :: c3 :: r => utf8Cont c1 && utf8Cont c2 && utf8Cont c3 && utf8Valid r
      | _ => false
    else if b = 0xF4 then
      match rest with
      | c1 :: c2 :: c3 :: r => (0x80 ≤ c1 && c1 ≤ 0x8F) && utf8Cont c2 && utf8Cont c3 && utf8Valid r
      | _ => false
    else false

/-- Model of Rust `str::from_utf8(s).unwrap_or("")`: the bytes themselves
when valid UTF-8, the empty string otherwise (strings are byte lists). -/
def utf8OrEmpty (s : List Nat) : List Nat :=
  if utf8Valid s then s else []

/-- In-memory group record.  Modelled from the spec: the `v1group` module is
not under `src/`; §3 of the spec lists these attributes (parent/children are
handled separately by the tree builder). -/
structure V1Group where
  id          : Nat
  title       : List Nat
  creation    : Tm
  last_mod    : Tm
  last_access : Tm
  expire      : Tm
  image       : Nat
  level       : Nat
  flags       : Nat
deriving DecidableEq, Repr

/-- Modelled from the spec: `V1Group::new()` (module `v1group`, not under
`src/`) — a fresh group with zero/empty fields. -/
def V1Group.new : V1Group :=
  { id := 0, title := [], creation := ⟨0, 0, 0, 0, 0, 0⟩
  , last_mod := ⟨0, 0, 0, 0, 0, 0⟩, last_access := ⟨0, 0, 0, 0, 0, 0⟩
  , expire := ⟨0, 0, 0, 0, 0, 0⟩, image := 0, level := 0, flags := 0 }

/-- In-memory entry record.  Modelled from the spec: the `v1entry` module is
not under `src/`; §3 of the spec lists these attributes.  The password
(`SecureString`) is modelled by its plaintext bytes. -/
structure V1Entry where
  uuid        : List Nat
  group_id    : Nat
  image       : Nat
  title       : List Nat
  url         : List Nat
  username    : List Nat
  password    : List Nat
  comment     : List Nat
  binary_desc : List Nat
  binary      : List Nat
  creation    : Tm
  last_mod    : Tm
  last_access : Tm
  expire      : Tm
deriving DecidableEq, Repr

/-- Modelled from the spec: `V1Entry::new()` (module `v1entry`, not under
`src/`) — a fresh entry with zero/empty fields. -/
def V1Entry.new : V1Entry :=
  { uuid := [], group_id := 0, image := 0, title := [], url := []
  , username := [], password := [], comment := [], binary_desc := []
  , binary := [], creation := ⟨0, 0, 0, 0, 0, 0⟩, last_mod := ⟨0, 0, 0, 0, 0, 0⟩
  , last_access := ⟨0, 0, 0, 0, 0, 0⟩, expire := ⟨0, 0, 0, 0, 0, 0⟩ }

/-- Wrapping `field_size - 1` on `u32`, used for string fields whose size
includes the trailing NUL: for `fs = 0` the subtraction wraps to
`0xFFFFFFFF`. -/
def u32SubOne (fs : Nat) : Nat :=
  if fs = 0 then 0xFFFFFFFF else fs - 1

/-- Embedding of `read_group_field` (src/kpdb/v1kpdb.rs:297).  The slice of
the payload panics (`none`) when it runs past the plaintext; a short numeric
payload yields `ConvertErr` without touching the group (the assignment's
`try!` returns before any mutation); a 5-byte date shorter than 5 panics in
`get_date`; the title replaces invalid UTF-8 by the empty string. -/
def read_group_field (group : V1Group) (field_type field_size : Nat)
    (decrypted_database : List Nat) (pos : Nat) :
    Option (Except V1KpdbError V1Group) :=
  let sliceEnd := if field_type = 0x0002 then pos + u32SubOne field_size
                  else pos + field_size
  match rslice decrypted_database pos sliceEnd with
  | none => none
  | some db_slice =>
    match field_type with
    | 0x0001 =>
      match slice_to_u32 db_slice with
      | .ok v => some (.ok { group with id := v })
      | .error e => some (.error e)
    | 0x0002 => some (.ok { group with title := utf8OrEmpty db_slice })
    | 0x0003 =>
      match get_date db_slice with
      | none => none
      | some t => some (.ok { group with creation := t })
    | 0x0004 =>
      match get_date db_slice with
      | none => none
      | some t => some (.ok { group with last_mod := t })
    | 0x0005 =>
      match get_date db_slice with
      | none => none
      | some t => some (.ok { group with last_access := t })
    | 0x0006 =>
      match get_date db_slice with
      | none => none
      | some t => some (.ok { group with expire := t })
    | 0x0007 =>
      match slice_to_u32 db_slice with
      | .ok v => some (.ok { group with image := v })
      | .error e => some (.error e)
    | 0x0008 =>
      match slice_to_u16 db_slice with
      | .ok v => some (.ok { group with level := v })
      | .error e => some (.error e)
    | 0x0009 =>
      match slice_to_u32 db_slice with
      | .ok v => some (.ok { group with flags := v })
      | .error e => some (.error e)
    | _ => some (.ok group)

/-- Embedding of `read_entry_field` (src/kpdb/v1kpdb.rs:322).  String fields
(`0x0004..0x0008`, `0x000D`) slice `field_size - 1` bytes (the NUL is
dropped).  All of them except the password use `unwrap_or("")`; the password
(0x0007) uses `unwrap()` and hence panics (`none`) on invalid UTF-8. -/
def read_entry_field (entry : V1Entry) (field_type field_size : Nat)
    (decrypted_database : List Nat) (pos : Nat) :
    Option (Except V1KpdbError V1Entry) :=
  let sliceEnd := if (0x0004 ≤ field_type ∧ field_type ≤ 0x0008) ∨ field_type = 0x000D then
                    pos + u32SubOne field_size
                  else pos + field_size
  match rslice decrypted_database pos sliceEnd with
  | none => none
  | some db_slice =>
    match field_type with
    | 0x0001 => some (.ok { entry with uuid := db_slice })
    | 0x0002 =>
      match slice_to_u32 db_slice with
      | .ok v => some (.ok { entry with group_id := v })
      | .error e => some (.error e)
    | 0x0003 =>
      match slice_to_u32 db_slice with
      | .ok v => some (.ok { entry with image := v })
      | .error e => some (.error e)
    | 0x0004 => some (.ok { entry with title := utf8OrEmpty db_slice })
    | 0x0005 => some (.ok { entry with url := utf8OrEmpty db_slice })
    | 0x0006 => some (.ok { entry with username := utf8OrEmpty db_slice })
    | 0x0007 =>
      if utf8Valid db_slice then some (.ok { entry with password := db_slice })
      else none
    | 0x0008 => some (.ok { entry with comment := utf8OrEmpty db_slice })
    | 0x0009 =>
      match get_date db_slice with
      | none => none
      | some t => some (.ok { entry with creation := t })
    | 0x000A =>
      match get_date db_slice with
      | none => none
      | some t => some (.ok { entry with last_mod := t })
    | 0x000B =>
      match get_date db_slice with
      | none => none
      | some t => some (.ok { entry with last_access := t })
    | 0x000C =>
      match get_date db_slice with
      | none => none
      | some t => some (.ok { entry with expire := t })
    | 0x000D => some (.ok { entry with binary_desc := utf8OrEmpty db_slice })
    | 0x000E => some (.ok { entry with binary := db_slice })
    | _ => some (.ok entry)

/-- One-loop body of `parse_groups` (src/kpdb/v1kpdb.rs:199), fuelled.  The
fuel only guards the recursion; each iteration advances `pos` by at least 6
bytes, so `db.length + 1` fuel (used by `parseGroups`) is never exhausted
before the source loop would have terminated or panicked.  `group_number`
of the source always equals `groups.len()` (both start at 0 and are bumped
together), so the accumulator length stands in for the counter.  The result
of `read_group_field` is discarded by the source (`let _ =`): a returned
error leaves the current group unmutated, while a panic propagates. -/
def parseGroupsLoop (num_groups : Nat) (db : List Nat) :
    Nat → Nat → V1Group → List V1Group → List Nat →
    Option (Except V1KpdbError (List V1Group × List Nat × Nat))
  | 0, _, _, _, _ => none
  | fuel + 1, pos, cur_group, groups, levels =>
    if groups.length < num_groups then
      match rslice db pos (pos + 2) with
      | none => none
      | some s2 =>
        match slice_to_u16 s2 with
        | .error e => some (.error e)
        | .ok field_type =>
          let pos := pos + 2
          if pos > db.length then some (.error .OffsetErr)
          else
            match rslice db pos (pos + 4) with
            | none => none
            | some s4 =>
              match slice_to_u32 s4 with
              | .error e => some (.error e)
              | .ok field_size =>
                let pos := pos + 4
                if pos > db.length then some (.error .OffsetErr)
                else
                  match read_group_field cur_group field_type field_size db pos with
                  | none => none
                  | some r =>
                    let cur := match r with | .ok g => g | .error _ => cur_group
                    if field_type = 0x0008 then
                      let levels := levels ++ [cur.level]
                      let pos := pos + field_size
                      if pos > db.length then some (.error .OffsetErr)
                      else parseGroupsLoop num_groups db fuel pos cur groups levels
                    else if field_type = 0xFFFF then
                      let groups := groups ++ [cur]
                      if groups.length = num_groups then some (.ok (groups, levels, pos))
                      else
                        let pos := pos + field_size
                        if pos > db.length then some (.error .OffsetErr)
                        else parseGroupsLoop num_groups db fuel pos V1Group.new groups levels
                    else
                      let pos := pos + field_size
                      if pos > db.length then some (.error .OffsetErr)
                      else parseGroupsLoop num_groups db fuel pos cur groups levels
    else some (.ok (groups, levels, pos))

/-- Embedding of `parse_groups` (src/kpdb/v1kpdb.rs:199): returns the parsed
groups, the level vector and the remembered position. -/
def parseGroups (num_groups : Nat) (db : List Nat) :
    Option (Except V1KpdbError (List V1Group × List Nat × Nat)) :=
  parseGroupsLoop num_groups db (db.length + 1) 0 V1Group.new [] []

/-- One-loop body of `parse_entries` (src/kpdb/v1kpdb.rs:250), fuelled; same
shape as `parseGroupsLoop` (there is no level vector and the final position
is not returned). -/
def parseEntriesLoop (num_entries : Nat) (db : List Nat) :
    Nat → Nat → V1Entry → List V1Entry →
    Option (Except V1KpdbError (List V1Entry))
  | 0, _, _, _ => none
  | fuel + 1, pos, cur_entry, entries =>
    if entries.length < num_entries then
      match rslice db pos (pos + 2) with
      | none => none
      | some s2 =>
        match slice_to_u16 s2 with
        | .error e => some (.error e)
        | .ok field_type =>
          let pos := pos + 2
          if pos > db.length then some (.error .OffsetErr)
          else
            match rslice db pos (pos + 4) with
            | none => none
            | some s4 =>
              match slice_to_u32 s4 with
              | .error e => some (.error e)
              | .ok field_size =>
                let pos := pos + 4
                if pos > db.length then some (.error .OffsetErr)
                else
                  match read_entry_field cur_entry field_type field_size db pos with
                  | none => none
                  | some r =>
                    let cur := match r with | .ok en => en | .error _ => cur_entry
                    if field_type = 0xFFFF then
                      let entries := entries ++ [cur]
                      if entries.length = num_entries then some (.ok entries)
                      else
                        let pos := pos + field_size
                        if pos > db.length then some (.error .OffsetErr)
                        else parseEntriesLoop num_entries db fuel pos V1Entry.new entries
                    else
                      let pos := pos + field_size
                      if pos > db.length then some (.error .OffsetErr)
                      else parseEntriesLoop num_entries db fuel pos cur entries
    else some (.ok entries)

/-- Embedding of `parse_entries` (src/kpdb/v1kpdb.rs:250), resuming at the
position remembered by the group parser. -/
def parseEntries (num_entries : Nat) (db : List Nat) (remembered_pos : Nat) :
    Option (Except V1KpdbError (List V1Entry)) :=
  parseEntriesLoop num_entries db (db.length + 1) remembered_pos V1Entry.new []

/-- Parent reference of a group after tree building: not yet assigned, the
synthetic root, or the group at index `j`. -/
inductive ParentRef where
  | unset
  | root
  | group (j : Nat)
deriving DecidableEq, Repr

/-- Result of `create_group_tree` (src/kpdb/v1kpdb.rs:369): the `parent` of
each group, the `children` lists of each group and of the synthetic root
(as lists of group indices, in push order), the `entries` list of each group
and the back-link `group` of each entry (as indices). -/
structure GroupTree where
  parent       : List ParentRef
  children     : List (List Nat)
  rootChildren : List Nat
  groupEntries : List (List Nat)
  entryGroup   : List (Option Nat)
deriving DecidableEq, Repr

/-- Embedding of the inner `loop` of `create_group_tree`
(src/kpdb/v1kpdb.rs:383): starting at `j` and counting down, the first index
whose level is strictly below `li`; `none` when `j` reaches 0 without a hit
(the source then returns `TreeErr`). -/
def findPred (levels : List Nat) (li : Nat) : Nat → Option Nat
  | 0 => if levels.getD 0 0 < li then some 0 else none
  | j + 1 => if levels.getD (j + 1) 0 < li then some (j + 1) else findPred levels li j

/-- One iteration of the tree-building `for` loop at group index `i`
(src/kpdb/v1kpdb.rs:374-402).  `none` models the panic of `levels[i]` when
`i` is out of range of the level vector. -/
def cgtStep (levels : List Nat) (i : Nat) (st : GroupTree) :
    Option (Except V1KpdbError GroupTree) :=
  if i < levels.length then
    if levels.getD i 0 = 0 then
      some (.ok { st with parent := st.parent.set i .root
                        , rootChildren := st.rootChildren ++ [i] })
    else
      match findPred levels (levels.getD i 0) (i - 1) with
      | none => some (.error .TreeErr)
      | some j =>
        if levels.getD i 0 - levels.getD j 0 ≠ 1 then some (.error .TreeErr)
        else
          some (.ok { st with parent := st.parent.set i (.group j)
                            , children := st.children.set j (st.children.getD j [] ++ [i]) })
  else none

/-- The tree-building `for` loop over the group indices. -/
def cgtLoop (levels : List Nat) : List Nat → GroupTree →
    Option (Except V1KpdbError GroupTree)
  | [], st => some (.ok st)
  | i :: rest, st =>
    match cgtStep levels i st with
    | none => none
    | some (.error e) => some (.error e)
    | some (.ok st2) => cgtLoop levels rest st2

/-- One iteration of the entry-sorting loop (src/kpdb/v1kpdb.rs:407-414) for
entry index `e` with group id `gid`: the entry is pushed onto the entry list
of every group whose id matches, and its back-link is set (and overwritten)
at every match, so the last matching group index remains. -/
def assignEntry (groupIds : List Nat) (e gid : Nat) (st : GroupTree) : GroupTree :=
  (List.range groupIds.length).foldl
    (fun acc j =>
      if gid = groupIds.getD j 0 then
        { acc with groupEntries := acc.groupEntries.set j (acc.groupEntries.getD j [] ++ [e])
                 , entryGroup := acc.entryGroup.set e (some j) }
      else acc)
    st

/-- Embedding of `create_group_tree` (src/kpdb/v1kpdb.rs:369).  Groups and
entries enter through the data the function actually consumes: the parsed
level vector, the group ids, and the entries' group ids.  `levels[0]` is
read unconditionally first, so an empty level vector panics (`none`). -/
def create_group_tree (groupIds levels entryGids : List Nat) :
    Option (Except V1KpdbError GroupTree) :=
  match levels with
  | [] => none
  | l0 :: _ =>
    if l0 ≠ 0 then some (.error .TreeErr)
    else
      let init : GroupTree :=
        { parent := List.replicate groupIds.length .unset
        , children := List.replicate groupIds.length []
        , rootChildren := []
        , groupEntries := List.replicate groupIds.length []
        , entryGroup := List.replicate entryGids.length none }
      match cgtLoop levels (List.range groupIds.length) init with
      | none => none
      | some (.error e) => some (.error e)
      | some (.ok st) =>
        some (.ok ((List.range entryGids.length).foldl
          (fun acc e => assignEntry groupIds e (entryGids.getD e 0) acc) st))

/-- Embedding of the padding-stripping tail of `decrypt_it`
(src/kpdb/v1kpdb.rs:164-178), applied to the CBC-decrypted buffer (the AES
call itself is an external primitive).  The source reads
`db_tmp[db_tmp.len() - 1]` — a panic on an empty buffer — and resizes to
`length - padding` — for `padding > length` the unsigned subtraction wraps
and the resize aborts; both are `none`.  No validation of the padding bytes
is performed. -/
def decrypt_it_strip (db_tmp : List Nat) : Option (List Nat) :=
  match db_tmp.getLast? with
  | none => none
  | some padding =>
    if padding ≤ db_tmp.length then some (db_tmp.take (db_tmp.length - padding))
    else none

/-- A second definition following the spec's words (§4.3 / claim C5), for
contrast with `decrypt_it_strip`: valid PKCS#7 padding means the last byte
`n` satisfies `1 ≤ n ≤ 16` and the last `n` bytes all equal `n`. -/
def pkcs7ValidSpec (db : List Nat) : Bool :=
  match db.getLast? with
  | none => false
  | some n => 1 ≤ n && n ≤ 16 && n ≤ db.length
              && (db.drop (db.length - n)).all (fun b => b = n)

/-- Embedding of `check_version` (src/v1kpdb/mod.rs:100): an exact
comparison of the header's version field with `0x00030002`. -/
def check_version (version : Nat) : Except V1KpdbError Unit :=
  if version ≠ 0x00030002 then .error .VersionErr else .ok ()

/-- The obfuscated secret container (module `sec_str`, not under `src/`).
Modelled from the spec: it carries the password bytes (the XOR mask is
external randomness and does not affect any claim), here the plaintext. -/
structure SecureString where
  string : String
deriving DecidableEq, Repr

/-- Embedding of `SecureString::new` as consumed by `V1Kpdb::new`: wraps the
plaintext (locking is an in-place XOR with external randomness). -/
def SecureString.new (s : String) : SecureString := ⟨s⟩

/-- Header record (src/v1kpdb/mod.rs:8; the `v1header` module of the kpdb
variant is not under `src/`, its fields per spec §3 are the same). -/
structure V1Header where
  signature1        : Nat
  signature2        : Nat
  enc_flag          : Nat
  version           : Nat
  final_randomseed  : List Nat
  iv                : List Nat
  num_groups        : Nat
  num_entries       : Nat
  contents_hash     : List Nat
  transf_randomseed : List Nat
  key_transf_rounds : Nat
deriving DecidableEq, Repr

/-- Modelled from the spec: `V1Header::new()` (module `v1header`, not under
`src/`) — a fresh header with zero/empty fields, as constructed by
`V1Kpdb::new` before any file is read. -/
def V1Header.new : V1Header :=
  { signature1 := 0, signature2 := 0, enc_flag := 0, version := 0
  , final_randomseed := [], iv := [], num_groups := 0, num_entries := 0
  , contents_hash := [], transf_randomseed := [], key_transf_rounds := 0 }

/-- The database value produced by `V1Kpdb::new` (src/kpdb/v1kpdb.rs:38,87).
The root group is a plain fresh group. -/
structure V1Kpdb where
  path       : String
  password   : SecureString
  keyfile    : String
  header     : V1Header
  groups     : List V1Group
  entries    : List V1Entry
  root_group : V1Group
deriving DecidableEq, Repr

/-- Embedding of `V1Kpdb::new` (src/kpdb/v1kpdb.rs:87): a total constructor
that stores the three arguments and fresh empty state — it performs no
validation and cannot fail (its return type is `V1Kpdb`, not `Result`). -/
def V1Kpdb.new (path password keyfile : String) : V1Kpdb :=
  { path := path, password := SecureString.new password, keyfile := keyfile
  , header := V1Header.new, groups := [], entries := []
  , root_group := V1Group.new }

/-- Result of a successful `load`: the parsed groups and entries together
with the assembled tree. -/
structure LoadResult where
  groups  : List V1Group
  entries : List V1Entry
  tree    : GroupTree
deriving DecidableEq, Repr

/-- Embedding of the parsing tail of `load` (src/kpdb/v1kpdb.rs:95-109),
starting from the decrypted plaintext (header reading and decryption are
file/crypto I/O):  `parse_groups`, then `parse_entries` at the remembered
position, then `create_group_tree`. -/
def loadModel (num_groups num_entries : Nat) (db : List Nat) :
    Option (Except V1KpdbError LoadResult) :=
  match parseGroups num_groups db with
  | none => none
  | some (.error e) => some (.error e)
  | some (.ok (groups, levels, pos)) =>
    match parseEntries num_entries db pos with
    | none => none
    | some (.error e) => some (.error e)
    | some (.ok entries) =>
      match create_group_tree (groups.map V1Group.id) levels
              (entries.map V1Entry.group_id) with
      | none => none
      | some (.error e) => some (.error e)
      | some (.ok t) => some (.ok ⟨groups, entries, t⟩)

/-- Whether the tree-building step at index `i` succeeds: level 0, or the
backward scan finds a predecessor exactly one level up. -/
def stepOkB (levels : List Nat) (i : Nat) : Bool :=
  if levels.getD i 0 = 0 then true
  else
    match findPred levels (levels.getD i 0) (i - 1) with
    | none => false
    | some j => levels.getD i 0 - levels.getD j 0 == 1

/-- The state change of a successful tree-building step at index `i` (the
`findPred ... = none` case never occurs on the success path and leaves the
state unchanged here). -/
def applyStep (levels : List Nat) (st : GroupTree) (i : Nat) : GroupTree :=
  if levels.getD i 0 = 0 then
    { st with parent := st.parent.set i .root
            , rootChildren := st.rootChildren ++ [i] }
  else
    match findPred levels (levels.getD i 0) (i - 1) with
    | none => st
    | some j => { st with parent := st.parent.set i (.group j)
                        , children := st.children.set j (st.children.getD j [] ++ [i]) }

/-- The parent reference the loop assigns at index `i`. -/
def parentSpec (levels : List Nat) (i : Nat) : ParentRef :=
  if levels.getD i 0 = 0 then .root
  else
    match findPred levels (levels.getD i 0) (i - 1) with
    | none => .unset
    | some j => .group j

/-- The largest index `j < gids.length` with `gids[j] = gid`, computed the
way the entry-sorting loop overwrites the back-link at every match. -/
def lastMatch (gids : List Nat) (gid : Nat) : Option Nat :=
  (List.range gids.length).foldl
    (fun acc j => if gid = gids.getD j 0 then some j else acc) none

/-- C8: for every 5-byte timestamp payload `b0..b4`, the decoder returns
`year = (b0<<6) | (b1>>2)`, `month = ((b1&0x3)<<2) | (b2>>6)`,
`day = (b2>>1) & 0x1F`, `hour = ((b2&0x1)<<4) | (b3>>4)`,
`minute = ((b3&0xF)<<2) | (b4>>6)`, `second = b4 & 0x3F`. -/
theorem C8_get_date_formula (b0 b1 b2 b3 b4 : Nat) :
    get_date [b0, b1, b2, b3, b4] =
      some { year   := (b0 <<< 6) ||| (b1 >>> 2)
           , month  := ((b1 &&& 0x3) <<< 2) ||| (b2 >>> 6)
           , day    := (b2 >>> 1) &&& 0x1F
           , hour   := ((b2 &&& 0x1) <<< 4) ||| (b3 >>> 4)
           , minute := ((b3 &&& 0xF) <<< 2) ||| (b4 >>> 6)
           , second := b4 &&& 0x3F } := rfl

/-- C6 counterexample: version `0x00030001` has `version & 0xFFFFFF00 =
0x00030000`, so by the claim it passes the version check, yet `check_version`
rejects it with `VersionErr` (the source compares for exact equality with
`0x00030002`). -/
theorem C6_counterexample :
    0x00030001 &&& 0xFFFFFF00 = 0x00030000 ∧
    check_version 0x00030001 = .error .VersionErr := by
  exact ⟨by decide, rfl⟩

/-- C6 amended: header validation fails with `VersionErr` exactly when the
version field differs from the exact constant `0x00030002` (no masking). -/
theorem C6_check_version_exact (version : Nat) :
    check_version version =
      if version = 0x00030002 then .ok () else .error .VersionErr := by
  by_cases h : version = 0x00030002 <;> simp [check_version, h]

/-- C7 counterexample: constructing with an empty password and an empty
keyfile (both key factors absent) succeeds and returns a database value —
`V1Kpdb::new` has no failure channel at all, contradicting the claim that
construction fails when both secrets are absent. -/
theorem C7_counterexample :
    V1Kpdb.new "test.kdb" "" "" =
      { path := "test.kdb", password := ⟨""⟩, keyfile := ""
      , header := V1Header.new, groups := [], entries := []
      , root_group := V1Group.new } := rfl

/-- C7 amended: the constructor of `src/kpdb/v1kpdb.rs` is total — it stores
path, password and keyfile unchecked (the keyfile is never read; keyfile
support is an open TODO in the module), and always returns a fresh database;
it cannot fail for absent secrets or for an unreadable keyfile. -/
theorem C7_new_never_fails (path password keyfile : String) :
    V1Kpdb.new path password keyfile =
      { path := path, password := ⟨password⟩, keyfile := keyfile
      , header := V1Header.new, groups := [], entries := []
      , root_group := V1Group.new } := rfl

/-- C5 counterexample: the buffer `[0x00, 0x02]` has invalid PKCS#7 padding
(its last byte is 2 but its last two bytes are not both 2), yet `decrypt_it`
does not fail: it silently strips two bytes and returns the empty buffer. -/
theorem C5_counterexample :
    pkcs7ValidSpec [0x00, 0x02] = false ∧
    decrypt_it_strip [0x00, 0x02] = some [] := by
  exact ⟨rfl, rfl⟩

/-- C5 amended: `decrypt_it` performs no PKCS#7 validation.  With `n` the
last byte of the CBC-decrypted buffer, it unconditionally removes the last
`n` bytes when `n` is at most the buffer length (no check that `1 ≤ n ≤ 16`
or that the last `n` bytes equal `n`), and panics when `n` exceeds the
length; an empty buffer panics on the last-byte read. -/
theorem C5_strip_unvalidated (db_tmp : List Nat) (n : Nat)
    (h : db_tmp.getLast? = some n) :
    (n ≤ db_tmp.length →
        decrypt_it_strip db_tmp = some (db_tmp.take (db_tmp.length - n))) ∧
    (db_tmp.length < n → decrypt_it_strip db_tmp = none) ∧
    decrypt_it_strip [] = none := by
  unfold decrypt_it_strip
  rw [h]
  refine ⟨fun h2 => ?_, fun h2 => ?_, rfl⟩
  · simp [h2]
  · simp [show ¬(n ≤ db_tmp.length) by omega]

/-- C5 witness: at the concrete buffer `[3, 1]` (valid one-byte padding),
the theorem instantiates to stripping exactly one byte. -/
theorem C5_witness : decrypt_it_strip [3, 1] = some [3] :=
  (C5_strip_unvalidated [3, 1] 1 rfl).1 (by decide)

theorem rslice_length {db : List Nat} {s e : Nat} {l : List Nat}
    (h : rslice db s e = some l) : l.length = e - s := by
  unfold rslice at h
  split at h
  · next hc =>
    injection h with h
    subst h
    simp only [List.length_take, List.length_drop]
    omega
  · exact absurd h (by simp)

theorem slice_to_u16_of_len {s : List Nat} (h : 2 ≤ s.length) :
    slice_to_u16 s = .ok ((s.getD 1 0 <<< 8) ||| s.getD 0 0) := by
  unfold slice_to_u16
  rw [if_neg (by omega)]

theorem slice_to_u32_of_len {s : List Nat} (h : 4 ≤ s.length) :
    slice_to_u32 s =
      .ok ((s.getD 3 0 <<< 24) ||| (s.getD 2 0 <<< 16) ||| (s.getD 1 0 <<< 8) ||| s.getD 0 0) := by
  unfold slice_to_u32
  rw [if_neg (by omega)]

theorem parseGroupsLoop_no_ConvertErr (n : Nat) (db : List Nat) :
    ∀ fuel pos cur groups levels,
      parseGroupsLoop n db fuel pos cur groups levels ≠ some (.error .ConvertErr) := by
  intro fuel
  induction fuel with
  | zero =>
    intro pos cur groups levels
    simp [parseGroupsLoop]
  | succ fuel ih =>
    intro pos cur groups levels
    simp only [parseGroupsLoop]
    split
    · split
      · simp
      · next s2 hs2 =>
        have h2 : s2.length = 2 := by
          have := rslice_length hs2; omega
        split
        · next e he =>
          rw [slice_to_u16_of_len (by omega)] at he
          cases he
        · next ft hft =>
          split
          · simp
          · split
            · simp
            · next s4 hs4 =>
              have h4 : s4.length = 4 := by
                have := rslice_length hs4; omega
              split
              · next e he =>
                rw [slice_to_u32_of_len (by omega)] at he
                cases he
              · next fs hfs =>
                split
                · simp
                · split
                  · simp
                  · next r hr =>
                    split
                    · split
                      · simp
                      · exact ih _ _ _ _
                    · split
                      · split
                        · simp
                        · split
                          · simp
                          · exact ih _ _ _ _
                      · split
                        · simp
                        · exact ih _ _ _ _
    · simp

theorem parseEntriesLoop_no_ConvertErr (n : Nat) (db : List Nat) :
    ∀ fuel pos cur entries,
      parseEntriesLoop n db fuel pos cur entries ≠ some (.error .ConvertErr) := by
  intro fuel
  induction fuel with
  | zero =>
    intro pos cur entries
    simp [parseEntriesLoop]
  | succ fuel ih =>
    intro pos cur entries
    simp only [parseEntriesLoop]
    split
    · split
      · simp
      · next s2 hs2 =>
        have h2 : s2.length = 2 := by
          have := rslice_length hs2; omega
        split
        · next e he =>
          rw [slice_to_u16_of_len (by omega)] at he
          cases he
        · next ft hft =>
          split
          · simp
          · split
            · simp
            · next s4 hs4 =>
              have h4 : s4.length = 4 := by
                have := rslice_length hs4; omega
              split
              · next e he =>
                rw [slice_to_u32_of_len (by omega)] at he
                cases he
              · next fs hfs =>
                split
                · simp
                · split
                  · simp
                  · next r hr =>
                    split
                    · split
                      · simp
                      · split
                        · simp
                        · exact ih _ _ _
                    · split
                      · simp
                      · exact ih _ _ _
    · simp

/-- C4 counterexample: the single TLV `type=0x0001, size=4` in a 6-byte
plaintext declares a 4-byte payload that extends past the end of the
plaintext.  The claim demands `OffsetErr` (or `ConvertErr`), but the
out-of-bounds slice inside `read_group_field` panics: no value at all is
returned. -/
theorem C4_counterexample :
    parseGroups 1 [0x01, 0x00, 0x04, 0x00, 0x00, 0x00] = none ∧
    parseGroups 1 [0x01, 0x00, 0x04, 0x00, 0x00, 0x00] ≠ some (.error .OffsetErr) ∧
    parseGroups 1 [0x01, 0x00, 0x04, 0x00, 0x00, 0x00] ≠ some (.error .ConvertErr) := by
  have h0 : parseGroups 1 [0x01, 0x00, 0x04, 0x00, 0x00, 0x00] = none := rfl
  exact ⟨h0, by rw [h0]; simp, by rw [h0]; simp⟩

/-- C4 amended: parsing is not total — a TLV payload extending beyond the
plaintext bounds makes the slice inside the field reader panic rather than
return `OffsetErr` (`OffsetErr` only arises from the post-advance position
checks) — and neither `parse_groups` nor `parse_entries` ever returns
`ConvertErr`: the top-level type/size reads always receive exact 2- and
4-byte slices (a short region panics in `slice()` first), and field-level
`ConvertErr`s are discarded by the `let _ =` at the call sites. -/
theorem C4_no_ConvertErr (num_groups num_entries : Nat) (db : List Nat) (pos : Nat) :
    parseGroups num_groups db ≠ some (.error .ConvertErr) ∧
    parseEntries num_entries db pos ≠ some (.error .ConvertErr) :=
  ⟨parseGroupsLoop_no_ConvertErr num_groups db _ _ _ _ _,
   parseEntriesLoop_no_ConvertErr num_entries db _ _ _ _⟩

theorem parseGroupsLoop_ok_length (n : Nat) (db : List Nat) :
    ∀ fuel pos cur groups levels res,
      groups.length ≤ n →
      parseGroupsLoop n db fuel pos cur groups levels = some (.ok res) →
      res.1.length = n := by
  intro fuel
  induction fuel with
  | zero =>
    intro pos cur groups levels res hle h
    simp [parseGroupsLoop] at h
  | succ fuel ih =>
    intro pos cur groups levels res hle h
    simp only [parseGroupsLoop] at h
    split at h
    · next hlt =>
      repeat' split at h
      all_goals try cases h
      all_goals
        first
          | exact ih _ _ _ _ _ hle h
          | assumption
          | (refine ih _ _ _ _ _ ?_ h
             simp only [List.length_append, List.length_singleton]
             omega)
    · next hge =>
      cases h
      exact (by omega : groups.length = n)

theorem parseEntriesLoop_ok_length (n : Nat) (db : List Nat) :
    ∀ fuel pos cur entries res,
      entries.length ≤ n →
      parseEntriesLoop n db fuel pos cur entries = some (.ok res) →
      res.length = n := by
  intro fuel
  induction fuel with
  | zero =>
    intro pos cur entries res hle h
    simp [parseEntriesLoop] at h
  | succ fuel ih =>
    intro pos cur entries res hle h
    simp only [parseEntriesLoop] at h
    split at h
    · next hlt =>
      repeat' split at h
      all_goals try cases h
      all_goals
        first
          | exact ih _ _ _ _ hle h
          | assumption
          | (refine ih _ _ _ _ ?_ h
             simp only [List.length_append, List.length_singleton]
             omega)
    · next hge =>
      cases h
      exact (by omega : entries.length = n)

/-- C9: whenever the parsing pipeline of `load` succeeds, the group list has
exactly `header.num_groups` elements and the entry list exactly
`header.num_entries` elements. -/
theorem C9_load_counts (num_groups num_entries : Nat) (db : List Nat)
    (res : LoadResult)
    (h : loadModel num_groups num_entries db = some (.ok res)) :
    res.groups.length = num_groups ∧ res.entries.length = num_entries := by
  unfold loadModel at h
  split at h
  · cases h
  · cases h
  · next groups levels pos hpg =>
    split at h
    · cases h
    · cases h
    · next entries hpe =>
      split at h
      · cases h
      · cases h
      · next t hct =>
        injection h with h
        injection h with h
        subst h
        constructor
        · exact parseGroupsLoop_ok_length num_groups db _ _ _ _ _ _ (by simp) hpg
        · exact parseEntriesLoop_ok_length num_entries db _ _ _ _ _ (by simp) hpe

/-- C9 witness: a one-group, zero-entry plaintext (a level field `0` then the
record terminator) loads successfully with matching counts. -/
theorem C9_witness :
    loadModel 1 0 [0x08, 0x00, 0x02, 0x00, 0x00, 0x00, 0x00, 0x00,
                   0xFF, 0xFF, 0x00, 0x00, 0x00, 0x00] =
      some (.ok { groups := [V1Group.new], entries := []
                , tree := { parent := [.root], children := [[]]
                          , rootChildren := [0], groupEntries := [[]]
                          , entryGroup := [] } }) ∧
    (LoadResult.mk [V1Group.new] []
        { parent := [.root], children := [[]], rootChildren := [0]
        , groupEntries := [[]], entryGroup := [] }).groups.length = 1 ∧
    (LoadResult.mk [V1Group.new] []
        { parent := [.root], children := [[]], rootChildren := [0]
        , groupEntries := [[]], entryGroup := [] }).entries.length = 0 := by
  have h0 : loadModel 1 0 [0x08, 0x00, 0x02, 0x00, 0x00, 0x00, 0x00, 0x00,
                   0xFF, 0xFF, 0x00, 0x00, 0x00, 0x00] =
      some (.ok { groups := [V1Group.new], entries := []
                , tree := { parent := [.root], children := [[]]
                          , rootChildren := [0], groupEntries := [[]]
                          , entryGroup := [] } }) := rfl
  have h1 := C9_load_counts 1 0 _ _ h0
  exact ⟨h0, h1.1, h1.2⟩

/-- C10 counterexample: with `num_groups = 0` and `num_entries = 1`, the
7-byte plaintext `[04 00 02 00 00 00 FF]` (an entry title TLV whose size
includes the NUL) makes `parse_entries` return `OffsetErr`, which `load`
propagates — so `load` does return a `V1KpdbError` value, contradicting the
claim that it returns neither `Ok` nor any error for every database whose
header declares `num_groups = 0`. -/
theorem C10_counterexample :
    loadModel 0 1 [0x04, 0x00, 0x02, 0x00, 0x00, 0x00, 0xFF] =
      some (.error .OffsetErr) := rfl

/-- C10 amended: with `num_groups = 0`, group parsing always yields empty
group and level vectors, `load` can never return `Ok` (so it is total only
with `num_groups ≥ 1`), and whenever entry parsing succeeds
`create_group_tree` reads `levels[0]` of the empty level vector and panics,
so `load` returns no value at all; only an entry-parsing error can still
surface as a returned error value. -/
theorem C10_zero_groups (num_entries : Nat) (db : List Nat) :
    parseGroups 0 db = some (.ok ([], [], 0)) ∧
    (∀ res, loadModel 0 num_entries db ≠ some (.ok res)) ∧
    (∀ entries, parseEntries num_entries db 0 = some (.ok entries) →
        loadModel 0 num_entries db = none) := by
  have hpg : parseGroups 0 db = some (.ok ([], [], 0)) := by
    simp [parseGroups, parseGroupsLoop]
  refine ⟨hpg, ?_, ?_⟩
  · intro res h
    simp only [loadModel, hpg, create_group_tree, List.map_nil] at h
    split at h
    · cases h
    · cases h
    · cases h
  · intro entries hpe
    simp only [loadModel, hpg, hpe, create_group_tree, List.map_nil]

/-- C10 witness: the empty plaintext with `num_groups = num_entries = 0`
parses to no entries and `load` then panics in the tree builder. -/
theorem C10_witness :
    parseEntries 0 [] 0 = some (.ok []) ∧ loadModel 0 0 [] = none :=
  ⟨rfl, (C10_zero_groups 0 []).2.2 [] rfl⟩

/-- C3 counterexample: an entry password TLV (`type=0x0007`) with payload
`[0xFF]` (after stripping the NUL) is invalid UTF-8.  The claim says the
decoder stores the empty string and parsing does not fail, but the source
calls `str::from_utf8(..).unwrap()` for the password field and panics: no
value is returned. -/
theorem C3_counterexample :
    utf8Valid [0xFF] = false ∧
    read_entry_field V1Entry.new 0x0007 2 [0xFF, 0x00] 0 = none := ⟨rfl, rfl⟩

/-- C3 amended: for the group title and for the entry title, url, username,
comment and binary_desc fields, a payload (without its trailing NUL) that is
not valid UTF-8 is decoded as the empty string and the field reader returns
normally; the entry password field is the exception — there invalid UTF-8
panics (`unwrap()` instead of `unwrap_or("")`), aborting the parse. -/
theorem C3_invalid_utf8_fields (g : V1Group) (en : V1Entry) (db : List Nat)
    (pos fs : Nat) (s : List Nat)
    (hs : rslice db pos (pos + u32SubOne fs) = some s)
    (hinv : utf8Valid s = false) :
    read_group_field g 0x0002 fs db pos = some (.ok { g with title := [] }) ∧
    read_entry_field en 0x0004 fs db pos = some (.ok { en with title := [] }) ∧
    read_entry_field en 0x0005 fs db pos = some (.ok { en with url := [] }) ∧
    read_entry_field en 0x0006 fs db pos = some (.ok { en with username := [] }) ∧
    read_entry_field en 0x0008 fs db pos = some (.ok { en with comment := [] }) ∧
    read_entry_field en 0x000D fs db pos = some (.ok { en with binary_desc := [] }) ∧
    read_entry_field en 0x0007 fs db pos = none := by
  refine ⟨?_, ?_, ?_, ?_, ?_, ?_, ?_⟩ <;>
    simp +decide [read_group_field, read_entry_field, hs, utf8OrEmpty, hinv]

/-- C3 witness: concrete two-byte field `[0xFF, 0x00]` (payload `0xFF`, then
the NUL), decoded at position 0 with declared size 2. -/
theorem C3_witness :
    read_group_field V1Group.new 0x0002 2 [0xFF, 0x00] 0 =
      some (.ok { V1Group.new with title := [] }) ∧
    read_entry_field V1Entry.new 0x0005 2 [0xFF, 0x00] 0 =
      some (.ok { V1Entry.new with url := [] }) :=
  ⟨(C3_invalid_utf8_fields V1Group.new V1Entry.new [0xFF, 0x00] 0 2 [0xFF] rfl rfl).1,
   (C3_invalid_utf8_fields V1Group.new V1Entry.new [0xFF, 0x00] 0 2 [0xFF] rfl rfl).2.2.1⟩

theorem getD_set_self {α : Type} (l : List α) (i : Nat) (a d : α) :
    (l.set i a).getD i d = if i < l.length then a else d := by
  rw [List.getD_eq_getElem?_getD, List.getElem?_set_self']
  split <;> simp_all [List.getD_eq_getElem?_getD, List.getElem?_eq_none]

theorem getD_set_ne {α : Type} (l : List α) (i j : Nat) (a d : α) (h : i ≠ j) :
    (l.set i a).getD j d = l.getD j d := by
  rw [List.getD_eq_getElem?_getD, List.getElem?_set_ne h, ← List.getD_eq_getElem?_getD]

theorem findPred_some {levels : List Nat} {li : Nat} :
    ∀ {s j : Nat}, findPred levels li s = some j →
      j ≤ s ∧ levels.getD j 0 < li ∧
        ∀ k, j < k → k ≤ s → ¬ levels.getD k 0 < li := by
  intro s
  induction s with
  | zero =>
    intro j h
    unfold findPred at h
    split at h
    · next hc =>
      injection h with h
      subst h
      exact ⟨Nat.le_refl 0, hc, fun k h1 h2 => by omega⟩
    · cases h
  | succ s ih =>
    intro j h
    unfold findPred at h
    split at h
    · next hc =>
      injection h with h
      subst h
      exact ⟨Nat.le_refl _, hc, fun k h1 h2 => by omega⟩
    · next hc =>
      obtain ⟨h1, h2, h3⟩ := ih h
      refine ⟨by omega, h2, fun k hk1 hk2 => ?_⟩
      rcases Nat.lt_or_ge k (s + 1) with hk | hk
      · exact h3 k hk1 (by omega)
      · have hk2' : k = s + 1 := by omega
        subst hk2'
        exact hc

theorem findPred_none {levels : List Nat} {li : Nat} :
    ∀ {s : Nat}, findPred levels li s = none →
      ∀ k, k ≤ s → ¬ levels.getD k 0 < li := by
  intro s
  induction s with
  | zero =>
    intro h k hk
    unfold findPred at h
    split at h
    · cases h
    · next hc =>
      have hk0 : k = 0 := by omega
      subst hk0
      exact hc
  | succ s ih =>
    intro h k hk
    unfold findPred at h
    split at h
    · cases h
    · next hc =>
      rcases Nat.lt_or_ge k (s + 1) with h2 | h2
      · exact ih h k (by omega)
      · have hk1 : k = s + 1 := by omega
        subst hk1
        exact hc

theorem findPred_eq_some {levels : List Nat} {li : Nat} :
    ∀ {s j : Nat}, j ≤ s → levels.getD j 0 < li →
      (∀ k, j < k → k ≤ s → ¬ levels.getD k 0 < li) →
      findPred levels li s = some j := by
  intro s
  induction s with
  | zero =>
    intro j h1 h2 h3
    have hj : j = 0 := by omega
    subst hj
    unfold findPred
    rw [if_pos h2]
  | succ s ih =>
    intro j h1 h2 h3
    unfold findPred
    split
    · next hc =>
      by_cases hj : j = s + 1
      · rw [hj]
      · exact absurd hc (h3 (s + 1) (by omega) (Nat.le_refl _))
    · next hc =>
      have hj : j ≤ s := by
        rcases Nat.lt_or_ge j (s + 1) with h4 | h4
        · omega
        · exfalso
          have hj1 : j = s + 1 := by omega
          subst hj1
          exact hc h2
      exact ih hj h2 (fun k hk1 hk2 => h3 k hk1 (by omega))

theorem cgtStep_ok {levels : List Nat} {i : Nat} {st : GroupTree}
    (hi : i < levels.length) (hok : stepOkB levels i = true) :
    cgtStep levels i st = some (.ok (applyStep levels st i)) := by
  unfold cgtStep applyStep
  rw [if_pos hi]
  unfold stepOkB at hok
  by_cases hz : levels.getD i 0 = 0
  · rw [if_pos hz, if_pos hz]
  · rw [if_neg hz, if_neg hz]
    rw [if_neg hz] at hok
    split
    · next heq => rw [heq] at hok; cases hok
    · next j heq =>
      rw [heq] at hok
      have hd : levels.getD i 0 - levels.getD j 0 = 1 := by
        simpa using hok
      rw [if_neg (by omega)]

theorem cgtStep_err {levels : List Nat} {i : Nat} {st : GroupTree}
    (hi : i < levels.length) (hbad : stepOkB levels i = false) :
    cgtStep levels i st = some (.error .TreeErr) := by
  unfold cgtStep
  rw [if_pos hi]
  unfold stepOkB at hbad
  by_cases hz : levels.getD i 0 = 0
  · rw [if_pos hz] at hbad; cases hbad
  · rw [if_neg hz] at hbad
    rw [if_neg hz]
    split
    · rfl
    · next j heq =>
      rw [heq] at hbad
      have hd : levels.getD i 0 - levels.getD j 0 ≠ 1 := by
        simpa using hbad
      rw [if_pos hd]

theorem cgtLoop_run (levels : List Nat) :
    ∀ (l : List Nat) (st : GroupTree), (∀ i ∈ l, i < levels.length) →
      cgtLoop levels l st =
        if l.all (stepOkB levels) then
          some (.ok (l.foldl (applyStep levels) st))
        else some (.error .TreeErr) := by
  intro l
  induction l with
  | nil =>
    intro st h
    simp [cgtLoop]
  | cons i rest ih =>
    intro st h
    have hi : i < levels.length := h i (List.mem_cons_self i rest)
    have hrest : ∀ k ∈ rest, k < levels.length :=
      fun k hk => h k (List.mem_cons_of_mem _ hk)
    by_cases hok : stepOkB levels i = true
    · simp only [cgtLoop, cgtStep_ok hi hok, List.all_cons, hok, Bool.true_and,
        List.foldl_cons]
      exact ih _ hrest
    · have hbad : stepOkB levels i = false := by
        simpa using hok
      simp only [cgtLoop, cgtStep_err hi hbad, List.all_cons, hbad, Bool.false_and]
      simp

theorem applyStep_parent (levels : List Nat) (st : GroupTree) (i : Nat)
    (hok : stepOkB levels i = true) :
    (applyStep levels st i).parent = st.parent.set i (parentSpec levels i) := by
  unfold applyStep parentSpec
  unfold stepOkB at hok
  by_cases hz : levels.getD i 0 = 0
  · rw [if_pos hz, if_pos hz]
  · rw [if_neg hz, if_neg hz]
    rw [if_neg hz] at hok
    split
    · next heq => rw [heq] at hok; cases hok
    · next j heq => rfl

theorem applyStep_rootChildren (levels : List Nat) (st : GroupTree) (i : Nat) :
    (applyStep levels st i).rootChildren =
      if levels.getD i 0 = 0 then st.rootChildren ++ [i] else st.rootChildren := by
  unfold applyStep
  by_cases hz : levels.getD i 0 = 0
  · rw [if_pos hz, if_pos hz]
  · rw [if_neg hz, if_neg hz]
    split
    · rfl
    · rfl

theorem applyStep_children (levels : List Nat) (st : GroupTree) (i : Nat) :
    (applyStep levels st i).children =
      match parentSpec levels i with
      | .group j => st.children.set j (st.children.getD j [] ++ [i])
      | _ => st.children := by
  unfold applyStep parentSpec
  by_cases hz : levels.getD i 0 = 0
  · rw [if_pos hz, if_pos hz]
  · rw [if_neg hz, if_neg hz]
    split
    · rfl
    · rfl

theorem applyStep_other_fields (levels : List Nat) (st : GroupTree) (i : Nat) :
    (applyStep levels st i).groupEntries = st.groupEntries ∧
    (applyStep levels st i).entryGroup = st.entryGroup ∧
    (applyStep levels st i).parent.length = st.parent.length ∧
    (applyStep levels st i).children.length = st.children.length := by
  unfold applyStep
  by_cases hz : levels.getD i 0 = 0
  · rw [if_pos hz]
    exact ⟨rfl, rfl, List.length_set .., rfl⟩
  · rw [if_neg hz]
    split
    · exact ⟨rfl, rfl, rfl, rfl⟩
    · exact ⟨rfl, rfl, List.length_set .., List.length_set ..⟩

theorem foldl_applyStep_other (levels : List Nat) :
    ∀ (l : List Nat) (st : GroupTree),
      ((l.foldl (applyStep levels) st).groupEntries = st.groupEntries ∧
       (l.foldl (applyStep levels) st).entryGroup = st.entryGroup ∧
       (l.foldl (applyStep levels) st).parent.length = st.parent.length ∧
       (l.foldl (applyStep levels) st).children.length = st.children.length) := by
  intro l
  induction l with
  | nil => intro st; exact ⟨rfl, rfl, rfl, rfl⟩
  | cons i rest ih =>
    intro st
    simp only [List.foldl_cons]
    obtain ⟨h1, h2, h3, h4⟩ := ih (applyStep levels st i)
    obtain ⟨g1, g2, g3, g4⟩ := applyStep_other_fields levels st i
    exact ⟨h1.trans g1, h2.trans g2, h3.trans g3, h4.trans g4⟩

theorem foldl_applyStep_parent (levels : List Nat) :
    ∀ (l : List Nat) (st : GroupTree), (∀ i ∈ l, stepOkB levels i = true) →
      (l.foldl (applyStep levels) st).parent =
        l.foldl (fun p i => p.set i (parentSpec levels i)) st.parent := by
  intro l
  induction l with
  | nil => intro st h; rfl
  | cons i rest ih =>
    intro st h
    simp only [List.foldl_cons]
    rw [ih _ (fun k hk => h k (List.mem_cons_of_mem _ hk)),
        applyStep_parent levels st i (h i (List.mem_cons_self i rest))]

theorem foldl_set_getD {α : Type} (f : Nat → α) (d : α) :
    ∀ (l : List Nat) (ps : List α) (i : Nat),
      (l.foldl (fun p k => p.set k (f k)) ps).getD i d =
        if i ∈ l ∧ i < ps.length then f i else ps.getD i d := by
  intro l
  induction l with
  | nil =>
    intro ps i
    simp
  | cons k rest ih =>
    intro ps i
    simp only [List.foldl_cons]
    rw [ih]
    simp only [List.length_set]
    by_cases hm : i ∈ rest
    · by_cases hl : i < ps.length
      · rw [if_pos ⟨hm, hl⟩, if_pos ⟨List.mem_cons_of_mem _ hm, hl⟩]
      · rw [if_neg (fun hc => hl hc.2), if_neg (fun hc => hl hc.2)]
        rw [List.getD_eq_default, List.getD_eq_default]
        · omega
        · simp only [List.length_set]; omega
    · by_cases hk : i = k
      · subst hk
        by_cases hl : i < ps.length
        · rw [if_neg (fun hc => hm hc.1), if_pos ⟨List.mem_cons_self i rest, hl⟩]
          rw [getD_set_self, if_pos hl]
        · rw [if_neg (fun hc => hm hc.1), if_neg (fun hc => hl hc.2)]
          rw [getD_set_self, if_neg hl]
          rw [List.getD_eq_default]
          omega
      · rw [if_neg (fun hc => hm hc.1)]
        rw [getD_set_ne _ _ _ _ _ (Ne.symm hk)]
        rw [if_neg ?_]
        intro hc
        rcases List.mem_cons.mp hc.1 with h1 | h1
        · exact hk h1
        · exact hm h1

theorem foldl_applyStep_rootChildren (levels : List Nat) :
    ∀ (l : List Nat) (st : GroupTree),
      (l.foldl (applyStep levels) st).rootChildren =
        st.rootChildren ++ l.filter (fun i => levels.getD i 0 == 0) := by
  intro l
  induction l with
  | nil => intro st; simp
  | cons i rest ih =>
    intro st
    simp only [List.foldl_cons]
    rw [ih, applyStep_rootChildren]
    by_cases hz : levels.getD i 0 = 0
    · rw [if_pos hz, List.filter_cons, if_pos (by simp only [beq_iff_eq]; exact hz)]
      simp
    · rw [if_neg hz, List.filter_cons, if_neg (by simp only [beq_iff_eq]; exact hz)]

theorem foldl_applyStep_children_getD (levels : List Nat) :
    ∀ (l : List Nat) (st : GroupTree) (j : Nat),
      (∀ i ∈ l, ∀ j2, parentSpec levels i = .group j2 → j2 < st.children.length) →
      (l.foldl (applyStep levels) st).children.getD j [] =
        st.children.getD j [] ++
          l.filter (fun i => parentSpec levels i == .group j) := by
  intro l
  induction l with
  | nil => intro st j h; simp
  | cons i rest ih =>
    intro st j h
    simp only [List.foldl_cons]
    have hlen : (applyStep levels st i).children.length = st.children.length :=
      (applyStep_other_fields levels st i).2.2.2
    rw [ih _ j (fun k hk j2 hps => by
      rw [hlen]; exact h k (List.mem_cons_of_mem _ hk) j2 hps)]
    rw [applyStep_children]
    cases hps : parentSpec levels i with
    | group j2 =>
      by_cases hj : j2 = j
      · subst hj
        have hlt : j2 < st.children.length := h i (List.mem_cons_self i rest) j2 hps
        rw [getD_set_self, if_pos hlt]
        simp [List.filter_cons, hps]
      · rw [getD_set_ne _ _ _ _ _ hj]
        simp [List.filter_cons, hps, hj]
    | root => simp [List.filter_cons, hps]
    | unset => simp [List.filter_cons, hps]

theorem foldl_assign_fields (gids : List Nat) (gid : Nat) (e : Nat) :
    ∀ (l : List Nat) (st : GroupTree),
      ((l.foldl (fun acc j =>
          if gid = gids.getD j 0 then
            { acc with
                groupEntries := acc.groupEntries.set j (acc.groupEntries.getD j [] ++ [e])
              , entryGroup := acc.entryGroup.set e (some j) }
          else acc) st).parent = st.parent ∧
       (l.foldl (fun acc j =>
          if gid = gids.getD j 0 then
            { acc with
                groupEntries := acc.groupEntries.set j (acc.groupEntries.getD j [] ++ [e])
              , entryGroup := acc.entryGroup.set e (some j) }
          else acc) st).children = st.children ∧
       (l.foldl (fun acc j =>
          if gid = gids.getD j 0 then
            { acc with
                groupEntries := acc.groupEntries.set j (acc.groupEntries.getD j [] ++ [e])
              , entryGroup := acc.entryGroup.set e (some j) }
          else acc) st).rootChildren = st.rootChildren) := by
  intro l
  induction l with
  | nil => intro st; exact ⟨rfl, rfl, rfl⟩
  | cons k rest ih =>
    intro st
    simp only [List.foldl_cons]
    by_cases hm : gid = gids.getD k 0
    · rw [if_pos hm]
      exact ih _
    · rw [if_neg hm]
      exact ih _

theorem assignEntry_tree_fields (gids : List Nat) (e gid : Nat) (st : GroupTree) :
    (assignEntry gids e gid st).parent = st.parent ∧
    (assignEntry gids e gid st).children = st.children ∧
    (assignEntry gids e gid st).rootChildren = st.rootChildren :=
  foldl_assign_fields gids gid e (List.range gids.length) st

theorem entriesFold_tree_fields (gids egids : List Nat) :
    ∀ (l : List Nat) (st : GroupTree),
      ((l.foldl (fun acc e => assignEntry gids e (egids.getD e 0) acc) st).parent = st.parent ∧
       (l.foldl (fun acc e => assignEntry gids e (egids.getD e 0) acc) st).children = st.children ∧
       (l.foldl (fun acc e => assignEntry gids e (egids.getD e 0) acc) st).rootChildren = st.rootChildren) := by
  intro l
  induction l with
  | nil => intro st; exact ⟨rfl, rfl, rfl⟩
  | cons k rest ih =>
    intro st
    simp only [List.foldl_cons]
    obtain ⟨h1, h2, h3⟩ := ih (assignEntry gids k (egids.getD k 0) st)
    obtain ⟨g1, g2, g3⟩ := assignEntry_tree_fields gids k (egids.getD k 0) st
    exact ⟨h1.trans g1, h2.trans g2, h3.trans g3⟩

theorem getD_replicate {α : Type} (n j : Nat) (d : α) :
    (List.replicate n d).getD j d = d := by
  rcases Nat.lt_or_ge j n with h | h
  · rw [List.getD_eq_getElem?_getD, List.getElem?_replicate, if_pos h]
    rfl
  · rw [List.getD_eq_default _ _ (by simpa using h)]

theorem parentSpec_of_ok {levels : List Nat} {i : Nat}
    (hz : levels.getD i 0 ≠ 0) (hok : stepOkB levels i = true) :
    ∃ j, findPred levels (levels.getD i 0) (i - 1) = some j ∧
      parentSpec levels i = .group j ∧
      levels.getD i 0 - levels.getD j 0 = 1 := by
  unfold stepOkB at hok
  rw [if_neg hz] at hok
  unfold parentSpec
  rw [if_neg hz]
  split at hok
  · cases hok
  · next j heq =>
    rw [heq]
    exact ⟨j, rfl, rfl, by simpa using hok⟩

theorem parentSpec_group_bound {levels : List Nat} {i j2 : Nat}
    (h : parentSpec levels i = .group j2) :
    j2 ≤ i - 1 ∧ levels.getD j2 0 < levels.getD i 0 := by
  unfold parentSpec at h
  by_cases hz : levels.getD i 0 = 0
  · rw [if_pos hz] at h; cases h
  · rw [if_neg hz] at h
    split at h
    · cases h
    · next j heq =>
      injection h with h
      subst h
      obtain ⟨h1, h2, _⟩ := findPred_some heq
      exact ⟨h1, h2⟩

theorem create_group_tree_run (gids entryGids ls : List Nat)
    (hle : gids.length ≤ ls.length + 1) :
    create_group_tree gids (0 :: ls) entryGids =
      (if (List.range gids.length).all (stepOkB (0 :: ls)) then
        some (.ok ((List.range entryGids.length).foldl
          (fun acc e => assignEntry gids e (entryGids.getD e 0) acc)
          ((List.range gids.length).foldl (applyStep (0 :: ls))
            { parent := List.replicate gids.length .unset
            , children := List.replicate gids.length []
            , rootChildren := []
            , groupEntries := List.replicate gids.length []
            , entryGroup := List.replicate entryGids.length none })))
      else some (.error .TreeErr)) := by
  have hmem : ∀ i ∈ List.range gids.length, i < (0 :: ls).length := by
    intro i hi
    have := List.mem_range.mp hi
    simp only [List.length_cons]
    omega
  simp only [create_group_tree, ne_eq, not_true_eq_false, if_false,
    ite_false]
  rw [cgtLoop_run (0 :: ls) (List.range gids.length) _ hmem]
  by_cases hall : (List.range gids.length).all (stepOkB (0 :: ls)) = true
  · rw [if_pos hall, if_pos hall]
  · rw [if_neg hall, if_neg hall]

/-- C1: `create_group_tree` fails with `TreeErr` when `levels[0] ≠ 0`; on
success, every group at level 0 has the synthetic root as parent and is in
the root's children, and every group `i` at level `> 0` has as parent the
nearest `j < i` with `levels[j] < levels[i]`, which satisfies
`levels[i] − levels[j] = 1`, and `i` is in `j`'s children; when for some `i`
no such `j` exists or the nearest one is not exactly one level up, the
builder fails with `TreeErr`. -/
theorem C1_tree_building (gids levels entryGids : List Nat)
    (hlen : levels.length = gids.length) :
    (levels.getD 0 0 ≠ 0 →
        create_group_tree gids levels entryGids = some (.error .TreeErr)) ∧
    (∀ t, create_group_tree gids levels entryGids = some (.ok t) →
       ∀ i, i < gids.length →
         (levels.getD i 0 = 0 →
            t.parent.getD i .unset = .root ∧ i ∈ t.rootChildren) ∧
         (levels.getD i 0 ≠ 0 →
            ∃ j, t.parent.getD i .unset = .group j ∧ j < i ∧
              levels.getD j 0 < levels.getD i 0 ∧
              (∀ k, j < k → k < i → ¬ levels.getD k 0 < levels.getD i 0) ∧
              levels.getD i 0 - levels.getD j 0 = 1 ∧
              i ∈ t.children.getD j [])) ∧
    (∀ i, i < gids.length → levels.getD 0 0 = 0 →
       ((levels.getD i 0 ≠ 0 ∧ ∀ k, k < i → ¬ levels.getD k 0 < levels.getD i 0) ∨
        (∃ j, j < i ∧ levels.getD j 0 < levels.getD i 0 ∧
           (∀ k, j < k → k < i → ¬ levels.getD k 0 < levels.getD i 0) ∧
           levels.getD i 0 - levels.getD j 0 ≠ 1)) →
       create_group_tree gids levels entryGids = some (.error .TreeErr)) := by
  cases levels with
  | nil =>
    have hg : gids.length = 0 := by simpa using hlen.symm
    refine ⟨?_, ?_, ?_⟩
    · intro h
      exact absurd rfl h
    · intro t ht
      rw [show create_group_tree gids [] entryGids = none from rfl] at ht
      cases ht
    · intro i hi
      exact absurd hi (by omega)
  | cons l0 ls =>
    by_cases hl0 : l0 = 0
    · subst hl0
      have hle : gids.length ≤ ls.length + 1 := by
        simp only [List.length_cons] at hlen
        omega
      have hrun := create_group_tree_run gids entryGids ls hle
      by_cases hall : (List.range gids.length).all (stepOkB (0 :: ls)) = true
      · rw [if_pos hall] at hrun
        set init : GroupTree :=
          { parent := List.replicate gids.length .unset
          , children := List.replicate gids.length []
          , rootChildren := []
          , groupEntries := List.replicate gids.length []
          , entryGroup := List.replicate entryGids.length none } with hinitdef
        set F1 : GroupTree :=
          (List.range gids.length).foldl (applyStep (0 :: ls)) init with hF1def
        set E : GroupTree :=
          (List.range entryGids.length).foldl
            (fun acc e => assignEntry gids e (entryGids.getD e 0) acc) F1 with hEdef
        have hokAll : ∀ k ∈ List.range gids.length, stepOkB (0 :: ls) k = true :=
          List.all_eq_true.mp hall
        have hpre := entriesFold_tree_fields gids entryGids
          (List.range entryGids.length) F1
        have hpar : E.parent =
            (List.range gids.length).foldl
              (fun p k => p.set k (parentSpec (0 :: ls) k)) init.parent :=
          (hpre.1).trans (foldl_applyStep_parent (0 :: ls) _ init hokAll)
        have hinitplen : init.parent.length = gids.length := by
          rw [hinitdef]
          simp
        have hpgetD : ∀ i2, i2 < gids.length →
            E.parent.getD i2 .unset = parentSpec (0 :: ls) i2 := by
          intro i2 hi2
          rw [hpar, foldl_set_getD,
            if_pos ⟨List.mem_range.mpr hi2, by rw [hinitplen]; exact hi2⟩]
        have hroot : E.rootChildren =
            List.filter (fun k => (0 :: ls).getD k 0 == 0)
              (List.range gids.length) := by
          rw [hpre.2.2, foldl_applyStep_rootChildren, hinitdef]
          simp
        have hinitclen : init.children.length = gids.length := by
          rw [hinitdef]
          simp
        have hbound : ∀ k ∈ List.range gids.length, ∀ j2,
            parentSpec (0 :: ls) k = .group j2 → j2 < init.children.length := by
          intro k hk j2 hps
          have hj2 := (parentSpec_group_bound hps).1
          have hkn := List.mem_range.mp hk
          rw [hinitclen]
          omega
        have hchild : ∀ j, E.children.getD j [] =
            List.filter (fun k => parentSpec (0 :: ls) k == .group j)
              (List.range gids.length) := by
          intro j
          rw [hpre.2.1,
            foldl_applyStep_children_getD (0 :: ls) (List.range gids.length) init j hbound,
            hinitdef]
          simp [getD_replicate]
        refine ⟨?_, ?_, ?_⟩
        · intro h
          exact absurd rfl h
        · intro t ht
          rw [hrun] at ht
          injection ht with ht
          injection ht with ht
          subst ht
          intro i hi
          constructor
          · intro hzi
            constructor
            · rw [hpgetD i hi]
              unfold parentSpec
              rw [if_pos hzi]
            · rw [hroot]
              refine List.mem_filter.mpr ⟨List.mem_range.mpr hi, ?_⟩
              simp only [beq_iff_eq]
              exact hzi
          · intro hzi
            obtain ⟨j, heqfp, hps, hdiff⟩ :=
              parentSpec_of_ok hzi (hokAll i (List.mem_range.mpr hi))
            obtain ⟨hj1, hj2, hj3⟩ := findPred_some heqfp
            have hi0 : i ≠ 0 := by
              intro hc
              subst hc
              exact hzi rfl
            refine ⟨j, ?_, by omega, hj2, ?_, hdiff, ?_⟩
            · rw [hpgetD i hi, hps]
            · intro k hk1 hk2
              exact hj3 k hk1 (by omega)
            · rw [hchild j]
              refine List.mem_filter.mpr ⟨List.mem_range.mpr hi, ?_⟩
              simp [hps]
        · intro i hi h00 hbad
          exfalso
          have hoki := List.all_eq_true.mp hall i (List.mem_range.mpr hi)
          rcases hbad with ⟨hzi, hnone⟩ | ⟨j, hji, hjlt, hbetween, hdiff⟩
          · unfold stepOkB at hoki
            rw [if_neg hzi] at hoki
            split at hoki
            · cases hoki
            · next j heq =>
              obtain ⟨h1, h2, _⟩ := findPred_some heq
              have hi0 : i ≠ 0 := by
                intro hc
                subst hc
                exact hzi rfl
              exact hnone j (by omega) h2
          · have hzi : (0 :: ls).getD i 0 ≠ 0 := by omega
            have heqfp : findPred (0 :: ls) ((0 :: ls).getD i 0) (i - 1) = some j :=
              findPred_eq_some (by omega) hjlt
                (fun k hk1 hk2 => hbetween k hk1 (by omega))
            unfold stepOkB at hoki
            rw [if_neg hzi, heqfp] at hoki
            have hd1 : (0 :: ls).getD i 0 - (0 :: ls).getD j 0 = 1 := by
              simpa using hoki
            exact hdiff hd1
      · rw [if_neg hall] at hrun
        refine ⟨fun h => absurd rfl h, ?_, ?_⟩
        · intro t ht
          rw [hrun] at ht
          cases ht
        · intro i hi h00 hbad
          exact hrun
    · have hc : create_group_tree gids (l0 :: ls) entryGids =
          some (.error .TreeErr) := by
        simp [create_group_tree, hl0]
      refine ⟨fun _ => hc, ?_, ?_⟩
      · intro t ht
        rw [hc] at ht
        cases ht
      · intro i hi h0 hbad
        exact absurd h0 hl0

/-- C1 witness: at `levels = [1, 0]` the first level is nonzero, so the
builder fails with `TreeErr`. -/
theorem C1_witness :
    create_group_tree [5, 6] [1, 0] [] = some (.error .TreeErr) :=
  (C1_tree_building [5, 6] [1, 0] [] rfl).1 (by decide)

theorem lastMatchFold_acc (gids : List Nat) (gid : Nat) :
    ∀ (l : List Nat) (a : Option Nat),
      l.foldl (fun acc j => if gid = gids.getD j 0 then some j else acc) a =
        (l.foldl (fun acc j => if gid = gids.getD j 0 then some j else acc)
          none).elim a some := by
  intro l
  induction l with
  | nil => intro a; rfl
  | cons k rest ih =>
    intro a
    simp only [List.foldl_cons]
    by_cases hm : gid = gids.getD k 0
    · rw [if_pos hm, if_pos hm, ih (some k)]
      have hh : ∀ (o : Option Nat),
          (o.elim (some k) some).elim a some = o.elim (some k) some := by
        intro o
        cases o <;> rfl
      rw [hh]
    · rw [if_neg hm, if_neg hm]
      exact ih a

theorem lastMatch_eq_none (gids : List Nat) (gid : Nat)
    (h : ∀ j, j < gids.length → gids.getD j 0 ≠ gid) :
    lastMatch gids gid = none := by
  unfold lastMatch
  have hgen : ∀ (l : List Nat) (a : Option Nat),
      (∀ j ∈ l, ¬ gid = gids.getD j 0) →
      l.foldl (fun acc j => if gid = gids.getD j 0 then some j else acc) a = a := by
    intro l
    induction l with
    | nil => intro a hl; rfl
    | cons k rest ih =>
      intro a hl
      simp only [List.foldl_cons]
      rw [if_neg (hl k (List.mem_cons_self k rest))]
      exact ih a (fun j hj => hl j (List.mem_cons_of_mem _ hj))
  exact hgen _ none (fun j hj hc =>
    h j (List.mem_range.mp hj) hc.symm)

theorem foldl_lastMatch_set (gids : List Nat) (gid e : Nat) :
    ∀ (l : List Nat) (st : GroupTree),
      (l.foldl (fun acc k =>
          if gid = gids.getD k 0 then
            { acc with
                groupEntries := acc.groupEntries.set k (acc.groupEntries.getD k [] ++ [e])
              , entryGroup := acc.entryGroup.set e (some k) }
          else acc) st).entryGroup =
        (l.foldl (fun acc j => if gid = gids.getD j 0 then some j else acc)
          none).elim st.entryGroup (fun j => st.entryGroup.set e (some j)) := by
  intro l
  induction l with
  | nil => intro st; rfl
  | cons k rest ih =>
    intro st
    simp only [List.foldl_cons]
    by_cases hm : gid = gids.getD k 0
    · rw [if_pos hm, if_pos hm, ih, lastMatchFold_acc gids gid rest (some k)]
      cases hX : rest.foldl (fun acc j => if gid = gids.getD j 0 then some j else acc) none with
      | none => rfl
      | some j =>
        simp only [Option.elim]
        exact List.set_set ..
    · rw [if_neg hm, if_neg hm]
      exact ih st

theorem assignEntry_entryGroup (gids : List Nat) (e gid : Nat) (st : GroupTree) :
    (assignEntry gids e gid st).entryGroup =
      (lastMatch gids gid).elim st.entryGroup
        (fun j => st.entryGroup.set e (some j)) :=
  foldl_lastMatch_set gids gid e (List.range gids.length) st

theorem foldl_assign_lengths (gids : List Nat) (gid e : Nat) :
    ∀ (l : List Nat) (st : GroupTree),
      ((l.foldl (fun acc k =>
          if gid = gids.getD k 0 then
            { acc with
                groupEntries := acc.groupEntries.set k (acc.groupEntries.getD k [] ++ [e])
              , entryGroup := acc.entryGroup.set e (some k) }
          else acc) st).groupEntries.length = st.groupEntries.length ∧
       (l.foldl (fun acc k =>
          if gid = gids.getD k 0 then
            { acc with
                groupEntries := acc.groupEntries.set k (acc.groupEntries.getD k [] ++ [e])
              , entryGroup := acc.entryGroup.set e (some k) }
          else acc) st).entryGroup.length = st.entryGroup.length) := by
  intro l
  induction l with
  | nil => intro st; exact ⟨rfl, rfl⟩
  | cons k rest ih =>
    intro st
    simp only [List.foldl_cons]
    by_cases hm : gid = gids.getD k 0
    · rw [if_pos hm]
      obtain ⟨h1, h2⟩ := ih
        { st with
            groupEntries := st.groupEntries.set k (st.groupEntries.getD k [] ++ [e])
          , entryGroup := st.entryGroup.set e (some k) }
      constructor
      · rw [h1]
        exact List.length_set ..
      · rw [h2]
        exact List.length_set ..
    · rw [if_neg hm]
      exact ih st

theorem assignEntry_lengths (gids : List Nat) (e gid : Nat) (st : GroupTree) :
    (assignEntry gids e gid st).groupEntries.length = st.groupEntries.length ∧
    (assignEntry gids e gid st).entryGroup.length = st.entryGroup.length :=
  foldl_assign_lengths gids gid e (List.range gids.length) st

theorem foldl_assign_groupEntries_getD (gids : List Nat) (gid e : Nat) :
    ∀ (l : List Nat) (st : GroupTree) (j : Nat), l.Nodup →
      (l.foldl (fun acc k =>
          if gid = gids.getD k 0 then
            { acc with
                groupEntries := acc.groupEntries.set k (acc.groupEntries.getD k [] ++ [e])
              , entryGroup := acc.entryGroup.set e (some k) }
          else acc) st).groupEntries.getD j [] =
        (if j ∈ l ∧ gid = gids.getD j 0 ∧ j < st.groupEntries.length
         then st.groupEntries.getD j [] ++ [e]
         else st.groupEntries.getD j []) := by
  intro l
  induction l with
  | nil =>
    intro st j hnd
    simp
  | cons k rest ih =>
    intro st j hnd
    have hknotin : k ∉ rest := (List.nodup_cons.mp hnd).1
    have hndr : rest.Nodup := (List.nodup_cons.mp hnd).2
    simp only [List.foldl_cons]
    by_cases hm : gid = gids.getD k 0
    · rw [if_pos hm, ih _ j hndr]
      simp only [List.length_set]
      by_cases hjk : j = k
      · subst hjk
        rw [if_neg (fun hc => hknotin hc.1)]
        rw [getD_set_self]
        by_cases hkl : j < st.groupEntries.length
        · rw [if_pos hkl, if_pos ⟨List.mem_cons_self j rest, hm, hkl⟩]
        · rw [if_neg hkl, if_neg (fun hc => hkl hc.2.2)]
          exact (List.getD_eq_default _ _ (by omega)).symm
      · rw [getD_set_ne _ _ _ _ _ (fun hc => hjk hc.symm)]
        by_cases hcond : j ∈ rest ∧ gid = gids.getD j 0 ∧ j < st.groupEntries.length
        · rw [if_pos hcond,
            if_pos ⟨List.mem_cons_of_mem _ hcond.1, hcond.2.1, hcond.2.2⟩]
        · rw [if_neg hcond, if_neg (fun hc => hcond
            ⟨(List.mem_cons.mp hc.1).resolve_left hjk, hc.2.1, hc.2.2⟩)]
    · rw [if_neg hm, ih _ j hndr]
      by_cases hjk : j = k
      · subst hjk
        rw [if_neg (fun hc => hknotin hc.1),
          if_neg (fun hc => hm (hc.2.1.trans rfl))]
      · by_cases hcond : j ∈ rest ∧ gid = gids.getD j 0 ∧ j < st.groupEntries.length
        · rw [if_pos hcond,
            if_pos ⟨List.mem_cons_of_mem _ hcond.1, hcond.2.1, hcond.2.2⟩]
        · rw [if_neg hcond, if_neg (fun hc => hcond
            ⟨(List.mem_cons.mp hc.1).resolve_left hjk, hc.2.1, hc.2.2⟩)]

theorem assignEntry_groupEntries_getD (gids : List Nat) (e gid : Nat)
    (st : GroupTree) (j : Nat) (hlen : st.groupEntries.length = gids.length) :
    (assignEntry gids e gid st).groupEntries.getD j [] =
      (if j < gids.length ∧ gid = gids.getD j 0
       then st.groupEntries.getD j [] ++ [e]
       else st.groupEntries.getD j []) := by
  rw [show (assignEntry gids e gid st).groupEntries.getD j [] =
    ((List.range gids.length).foldl (fun acc k =>
      if gid = gids.getD k 0 then
        { acc with
            groupEntries := acc.groupEntries.set k (acc.groupEntries.getD k [] ++ [e])
          , entryGroup := acc.entryGroup.set e (some k) }
      else acc) st).groupEntries.getD j [] from rfl]
  rw [foldl_assign_groupEntries_getD gids gid e (List.range gids.length) st j
    (List.nodup_range _)]
  rw [hlen]
  by_cases hcond : j < gids.length ∧ gid = gids.getD j 0
  · rw [if_pos ⟨List.mem_range.mpr hcond.1, hcond.2, hcond.1⟩, if_pos hcond]
  · rw [if_neg (fun hc => hcond ⟨List.mem_range.mp hc.1, hc.2.1⟩), if_neg hcond]

theorem cgtStep_ok_preserves {levels : List Nat} {i : Nat} {st st3 : GroupTree}
    (h : cgtStep levels i st = some (.ok st3)) :
    st3.groupEntries = st.groupEntries ∧ st3.entryGroup = st.entryGroup := by
  unfold cgtStep at h
  split at h
  · split at h
    · injection h with h
      injection h with h
      subst h
      exact ⟨rfl, rfl⟩
    · split at h
      · cases h
      · split at h
        · cases h
        · injection h with h
          injection h with h
          subst h
          exact ⟨rfl, rfl⟩
  · cases h

theorem cgtLoop_ok_preserves (levels : List Nat) :
    ∀ (l : List Nat) (st st2 : GroupTree),
      cgtLoop levels l st = some (.ok st2) →
      st2.groupEntries = st.groupEntries ∧ st2.entryGroup = st.entryGroup := by
  intro l
  induction l with
  | nil =>
    intro st st2 h
    injection h with h
    injection h with h
    subst h
    exact ⟨rfl, rfl⟩
  | cons i rest ih =>
    intro st st2 h
    simp only [cgtLoop] at h
    split at h
    · cases h
    · cases h
    · next st3 heq =>
      obtain ⟨a, b⟩ := ih st3 st2 h
      obtain ⟨c, d⟩ := cgtStep_ok_preserves heq
      exact ⟨a.trans c, b.trans d⟩

theorem entriesFold_entryGroup_frozen (gids egids : List Nat) :
    ∀ (l : List Nat) (st : GroupTree) (e : Nat), e ∉ l →
      (l.foldl (fun acc e2 => assignEntry gids e2 (egids.getD e2 0) acc)
        st).entryGroup.getD e none = st.entryGroup.getD e none := by
  intro l
  induction l with
  | nil => intro st e h; rfl
  | cons k rest ih =>
    intro st e h
    simp only [List.foldl_cons]
    rw [ih _ e (fun hc => h (List.mem_cons_of_mem _ hc))]
    rw [assignEntry_entryGroup]
    cases hX : lastMatch gids (egids.getD k 0) with
    | none => rfl
    | some j =>
      simp only [Option.elim]
      exact getD_set_ne _ _ _ _ _
        (fun hc => h (hc ▸ List.mem_cons_self k rest))

theorem entriesFold_groupEntries_frozen (gids egids : List Nat) (j : Nat)
    (hj : gids.length ≤ j) :
    ∀ (l : List Nat) (st : GroupTree),
      st.groupEntries.length = gids.length →
      (l.foldl (fun acc e2 => assignEntry gids e2 (egids.getD e2 0) acc)
        st).groupEntries.getD j [] = st.groupEntries.getD j [] := by
  intro l
  induction l with
  | nil => intro st hlen; rfl
  | cons k rest ih =>
    intro st hlen
    simp only [List.foldl_cons]
    rw [ih _ ((assignEntry_lengths gids k (egids.getD k 0) st).1.trans hlen)]
    rw [assignEntry_groupEntries_getD gids k (egids.getD k 0) st j hlen]
    rw [if_neg (fun hc => by omega)]

theorem entriesFold_entryGroup_getD (gids egids : List Nat) :
    ∀ (l : List Nat) (st : GroupTree), l.Nodup →
      (∀ k ∈ l, k < st.entryGroup.length) →
      (∀ k ∈ l, st.entryGroup.getD k none = none) →
      ∀ e ∈ l,
        (l.foldl (fun acc e2 => assignEntry gids e2 (egids.getD e2 0) acc)
          st).entryGroup.getD e none = lastMatch gids (egids.getD e 0) := by
  intro l
  induction l with
  | nil =>
    intro st hnd hlt hnone e he
    cases he
  | cons k rest ih =>
    intro st hnd hlt hnone e he
    have hknotin : k ∉ rest := (List.nodup_cons.mp hnd).1
    have hndr : rest.Nodup := (List.nodup_cons.mp hnd).2
    simp only [List.foldl_cons]
    have hlen2 : (assignEntry gids k (egids.getD k 0) st).entryGroup.length =
        st.entryGroup.length := (assignEntry_lengths ..).2
    rcases List.mem_cons.mp he with he1 | he2
    · subst he1
      rw [entriesFold_entryGroup_frozen gids egids rest _ e hknotin]
      rw [assignEntry_entryGroup]
      cases hX : lastMatch gids (egids.getD e 0) with
      | none => exact hnone e (List.mem_cons_self e rest)
      | some j =>
        simp only [Option.elim]
        rw [getD_set_self, if_pos (hlt e (List.mem_cons_self e rest))]
    · refine ih _ hndr ?_ ?_ e he2
      · intro k2 hk2
        rw [hlen2]
        exact hlt k2 (List.mem_cons_of_mem _ hk2)
      · intro k2 hk2
        rw [assignEntry_entryGroup]
        cases hX : lastMatch gids (egids.getD k 0) with
        | none => exact hnone k2 (List.mem_cons_of_mem _ hk2)
        | some j =>
          simp only [Option.elim]
          rw [getD_set_ne _ _ _ _ _
            (fun hc => hknotin (by rw [hc]; exact hk2))]
          exact hnone k2 (List.mem_cons_of_mem _ hk2)

theorem entriesFold_groupEntries_getD (gids egids : List Nat) (j : Nat)
    (hj : j < gids.length) :
    ∀ (l : List Nat) (st : GroupTree),
      st.groupEntries.length = gids.length →
      (l.foldl (fun acc e2 => assignEntry gids e2 (egids.getD e2 0) acc)
        st).groupEntries.getD j [] =
        st.groupEntries.getD j [] ++
          l.filter (fun e2 => egids.getD e2 0 == gids.getD j 0) := by
  intro l
  induction l with
  | nil => intro st hlen; simp
  | cons k rest ih =>
    intro st hlen
    simp only [List.foldl_cons]
    rw [ih _ ((assignEntry_lengths gids k (egids.getD k 0) st).1.trans hlen)]
    rw [assignEntry_groupEntries_getD gids k (egids.getD k 0) st j hlen]
    by_cases hm : egids.getD k 0 = gids.getD j 0
    · rw [if_pos ⟨hj, hm⟩, List.filter_cons,
        if_pos (by simp only [beq_iff_eq]; exact hm)]
      simp
    · rw [if_neg (fun hc => hm hc.2), List.filter_cons,
        if_neg (by simp only [beq_iff_eq]; exact hm)]

/-- C2 counterexample: one group with id 1 at level 0 and one entry whose
`group_id` is 2 matches no group, yet `create_group_tree` succeeds (the
entry-sorting loop has no failure path): the entry is left with no group and
no `TreeErr` is raised, contradicting the claimed `TreeErr`. -/
theorem C2_counterexample :
    create_group_tree [1] [0] [2] =
      some (.ok { parent := [.root], children := [[]], rootChildren := [0]
                , groupEntries := [[]], entryGroup := [none] }) ∧
    create_group_tree [1] [0] [2] ≠ some (.error .TreeErr) := by
  have h0 : create_group_tree [1] [0] [2] =
      some (.ok { parent := [.root], children := [[]], rootChildren := [0]
                , groupEntries := [[]], entryGroup := [none] }) := rfl
  exact ⟨h0, by rw [h0]; simp⟩

/-- C2 amended: after the group tree is built, the entry-sorting loop never
fails: an entry whose `group_id` matches no group's id is silently skipped
(its back-link stays `None` and it appears in no group's entry list); an
entry is appended to the entry list of every group whose id matches, and its
back-link is set to the last matching group in list order. -/
theorem C2_entry_assignment (gids levels entryGids : List Nat) (t : GroupTree)
    (h : create_group_tree gids levels entryGids = some (.ok t)) :
    ∀ e, e < entryGids.length →
      t.entryGroup.getD e none = lastMatch gids (entryGids.getD e 0) ∧
      ((∀ j, j < gids.length → gids.getD j 0 ≠ entryGids.getD e 0) →
          t.entryGroup.getD e none = none) ∧
      (∀ j, e ∈ t.groupEntries.getD j [] ↔
          j < gids.length ∧ gids.getD j 0 = entryGids.getD e 0) := by
  cases levels with
  | nil =>
    rw [show create_group_tree gids [] entryGids = none from rfl] at h
    cases h
  | cons l0 ls =>
    by_cases hl0 : l0 = 0
    · subst hl0
      simp only [create_group_tree, ne_eq, not_true_eq_false, if_false,
        ite_false] at h
      split at h
      · cases h
      · cases h
      · next st1 heq =>
        injection h with h
        injection h with h
        subst h
        obtain ⟨hge, heg⟩ := cgtLoop_ok_preserves (0 :: ls) _ _ _ heq
        intro e he
        have hem : e ∈ List.range entryGids.length := List.mem_range.mpr he
        have hnd := List.nodup_range entryGids.length
        have hlt : ∀ k ∈ List.range entryGids.length,
            k < st1.entryGroup.length := by
          intro k hk
          rw [heg]
          simpa using List.mem_range.mp hk
        have hnone : ∀ k ∈ List.range entryGids.length,
            st1.entryGroup.getD k none = none := by
          intro k hk
          rw [heg]
          exact getD_replicate ..
        have hglen : st1.groupEntries.length = gids.length := by
          rw [hge]
          simp
        have h1 := entriesFold_entryGroup_getD gids entryGids
          (List.range entryGids.length) st1 hnd hlt hnone e hem
        refine ⟨h1, ?_, ?_⟩
        · intro hno
          rw [h1]
          exact lastMatch_eq_none gids _ hno
        · intro j
          by_cases hj : j < gids.length
          · rw [entriesFold_groupEntries_getD gids entryGids j hj
              (List.range entryGids.length) st1 hglen]
            constructor
            · intro hmem
              rcases List.mem_append.mp hmem with hmem1 | hmem2
              · rw [hge, getD_replicate] at hmem1
                cases hmem1
              · have hf := List.mem_filter.mp hmem2
                refine ⟨hj, ?_⟩
                have := hf.2
                simp only [beq_iff_eq] at this
                exact this.symm
            · intro hc
              refine List.mem_append.mpr (Or.inr (List.mem_filter.mpr ⟨hem, ?_⟩))
              simp only [beq_iff_eq]
              exact hc.2.symm
          · rw [entriesFold_groupEntries_frozen gids entryGids j (by omega)
              (List.range entryGids.length) st1 hglen]
            constructor
            · intro hmem
              rw [hge, getD_replicate] at hmem
              cases hmem
            · intro hc
              exact absurd hc.1 hj
    · rw [show create_group_tree gids (l0 :: ls) entryGids =
        some (.error .TreeErr) from by simp [create_group_tree, hl0]] at h
      cases h

/-- C2 witness: the counterexample instance instantiates the amended
theorem at entry 0 — its back-link is the last match (here: none) and it is
a member of group 0's entry list exactly when the ids match (they do not). -/
theorem C2_witness :
    (GroupTree.mk [.root] [[]] [0] [[]] [none]).entryGroup.getD 0 none =
      lastMatch [1] 2 ∧
    (0 ∈ (GroupTree.mk [.root] [[]] [0] [[]] [none]).groupEntries.getD 0 [] ↔
      0 < ([1] : List Nat).length ∧
        ([1] : List Nat).getD 0 0 = ([2] : List Nat).getD 0 0) := by
  have h := C2_entry_assignment [1] [0] [2]
    (GroupTree.mk [.root] [[]] [0] [[]] [none]) rfl 0 (by decide)
  exact ⟨h.1, h.2.2 0⟩

end Keepass
